import Mathlib

/-!
# Verification of `are-we-biome-yet`

A shallow embedding, in Lean 4, of the rule-compatibility engine of the
`are-we-biome-yet` CLI (files `src/commands/biome.ts` and
`src/commands/analyze.ts`), together with proofs and refutations of the
specification's claims about it.

JavaScript strings are modelled as Lean `String`s; the JavaScript string
operations used by the code (`trim`, `includes`, `startsWith`, `split`,
the two regular expressions `\[([^\]]+)\]` and `/Rules name.*$/i`) are
given executable models over the underlying character lists.  JavaScript
numbers occurring as ESLint severities are modelled as integers, and the
compatibility percentage is computed in `ℚ`.  Effects (HTTP fetches, the
filesystem check, process exit) are modelled by explicit parameters and
an explicit outcome record.
-/

/-! ## Models of the JavaScript string primitives -/

/-- Whitespace trimming on a character list: drop whitespace from both
ends (model of `String.prototype.trim`). -/
def trimChars (cs : List Char) : List Char :=
  (((cs.dropWhile Char.isWhitespace).reverse).dropWhile Char.isWhitespace).reverse

/-- Model of `String.prototype.trim`. -/
def jsTrim (s : String) : String :=
  (trimChars s.data).asString

/-- Substring containment on character lists:
`containsSub sub cs` holds when `sub` occurs contiguously in `cs`. -/
def containsSub (sub : List Char) : List Char → Bool
  | [] => sub.isEmpty
  | c :: rest => sub.isPrefixOf (c :: rest) || containsSub sub rest

/-- Model of `String.prototype.includes`. -/
def jsIncludes (s sub : String) : Bool :=
  containsSub sub.data s.data

/-- Model of `String.prototype.startsWith`. -/
def jsStartsWith (s p : String) : Bool :=
  p.data.isPrefixOf s.data

/-- Split a character list at every occurrence of the character `c`
(model of `String.prototype.split` with a one-character separator). -/
def splitChar (c : Char) : List Char → List (List Char)
  | [] => [[]]
  | x :: xs =>
    if x = c then [] :: splitChar c xs
    else
      match splitChar c xs with
      | [] => [[x]]
      | h :: t => (x :: h) :: t

/-- First capture of the regular expression `\[([^\]]+)\]`: the first
nonempty run of non-`]` characters that follows a `[` and is closed by a
`]`. -/
def firstBracketCapture : List Char → Option String
  | [] => none
  | c :: rest =>
    if c = '[' then
      let run := rest.takeWhile (fun x => x ≠ ']')
      if 0 < run.length ∧ run.length < rest.length then some run.asString
      else firstBracketCapture rest
    else firstBracketCapture rest

/-- Truncate a character list at the first case-insensitive occurrence of
`pat` (model of one `String.prototype.replace` with the regular
expression `/pat.*$/i` and an empty replacement, on a single-line
string). -/
def truncAtCI (pat : List Char) : List Char → List Char
  | [] => []
  | c :: rest =>
    if (pat.map Char.toLower).isPrefixOf ((c :: rest).map Char.toLower) then []
    else c :: truncAtCI pat rest

/-- Code-unit lexicographic order on character lists, the order used by
the default `Array.prototype.sort` comparator on strings. -/
def lexLe : List Char → List Char → Bool
  | [], _ => true
  | _ :: _, [] => false
  | a :: as, b :: bs => if a = b then lexLe as bs else decide (a < b)

/-- Lexicographic order on strings (model of the default JavaScript
string comparison used by `Array.prototype.sort`). -/
def strLe (a b : String) : Bool :=
  lexLe a.data b.data

/-! ## Data model (`src/commands/biome.ts`) -/

/-- One documented ESLint → Biome rule equivalence.  `source` holds the
cleaned category label of the markdown section the row was found in. -/
structure BiomeRuleMapping where
  eslintRule : String
  biomeRule : String
  source : String
deriving DecidableEq

/-- The parsed remote rule data: mappings, Biome-exclusive rules, and the
list of source URLs that contributed. -/
structure BiomeRulesData where
  mappings : List BiomeRuleMapping
  exclusiveRules : List String
  sources : List String
deriving DecidableEq

/-- The three fixed remote source URLs (`BIOME_SOURCES_URLS`). -/
def BIOME_SOURCES_URLS : List String :=
  [ "https://raw.githubusercontent.com/biomejs/website/refs/heads/main/src/content/docs/linter/css/sources.mdx"
  , "https://raw.githubusercontent.com/biomejs/website/refs/heads/main/src/content/docs/linter/javascript/sources.mdx"
  , "https://raw.githubusercontent.com/biomejs/website/refs/heads/main/src/content/docs/linter/json/sources.mdx" ]

/-! ## Markdown parsing (`parseBiomeMarkdown`, `parseTableRow`,
`cleanSourceName`) -/

/-- `cleanSourceName`: delete everything from the first case-insensitive
occurrence of `"Rules name"` on, remove every `|`, trim; an empty result
falls back to `"ESLint"`. -/
def cleanSourceName (sectionName : String) : String :=
  let t := trimChars ((truncAtCI "Rules name".data sectionName.data).filter (fun c => c ≠ '|'))
  if t.isEmpty then "ESLint" else t.asString

/-- `parseTableRow`: split the row at `|`, trim the columns and drop the
empty ones; the first bracketed link of each of the first two columns
gives the ESLint and the Biome rule name; rows restating the
`Rules name` header are skipped. -/
def parseTableRow (line : String) (sectionName : String) : Option BiomeRuleMapping :=
  let columns := ((splitChar '|' line.data).map trimChars).filter (fun c => 0 < c.length)
  match columns with
  | c0 :: c1 :: _ =>
    match firstBracketCapture c0, firstBracketCapture c1 with
    | some eslintRule, some biomeRule =>
      if containsSub "Rules name".data eslintRule.data
          || containsSub "Rules name".data biomeRule.data then none
      else some ⟨eslintRule, biomeRule, cleanSourceName sectionName⟩
    | _, _ => none
  | _ => none

/-- The running state of the line scanner of `parseBiomeMarkdown`. -/
structure ParseState where
  mappings : List BiomeRuleMapping
  exclusiveRules : List String
  currentSection : String
  inTable : Bool
deriving DecidableEq

/-- The inner loop under a `## Biome exclusive rules` heading: collect
the `- [name](...)` list items of the following lines, up to the next
line that starts with `## `. -/
def collectExclusive (rest : List String) : List String :=
  (rest.takeWhile (fun l => !(jsStartsWith l "## "))).filterMap (fun l =>
    let t := jsTrim l
    if jsStartsWith t "- [" then firstBracketCapture t.data else none)

/-- The main line scanner of `parseBiomeMarkdown`: each line is trimmed;
a `### ` heading sets the current section and leaves any table; a
`## Biome exclusive rules` heading collects the following list items; a
line containing `| ---- | ---- |` opens a table; inside a table, a line
containing `|`, `[` and `](` is parsed as a row; a nonempty line without
`|` closes the table. -/
def parseLines : ParseState → List String → ParseState
  | st, [] => st
  | st, l :: rest =>
    let line := jsTrim l
    if jsStartsWith line "### " then
      parseLines { st with currentSection := jsTrim (String.mk (line.data.drop 4)),
                           inTable := false } rest
    else if jsStartsWith line "## Biome exclusive rules" then
      parseLines { st with exclusiveRules := st.exclusiveRules ++ collectExclusive rest } rest
    else if jsIncludes line "| ---- | ---- |" then
      parseLines { st with inTable := true } rest
    else if st.inTable && jsIncludes line "|" && jsIncludes line "[" && jsIncludes line "](" then
      match parseTableRow line st.currentSection with
      | some m => parseLines { st with mappings := st.mappings ++ [m] } rest
      | none => parseLines st rest
    else if st.inTable && !(jsIncludes line "|") && 0 < line.length then
      parseLines { st with inTable := false } rest
    else
      parseLines st rest

/-- `parseBiomeMarkdown`: split the document into lines and scan them,
starting with no section and no open table. -/
def parseBiomeMarkdown (content : String) (sourceUrl : String) : BiomeRulesData :=
  let lines := (splitChar '\n' content.data).map List.asString
  let final := parseLines ⟨[], [], "", false⟩ lines
  { mappings := final.mappings
  , exclusiveRules := final.exclusiveRules
  , sources := [sourceUrl] }

/-! ## Fetching (`fetchBiomeRules`) -/

/-- The outcome of one `fetch` call: a success response with a body, a
response with a non-success HTTP status, or an exception thrown by the
fetch itself (network failure). -/
inductive FetchResponse where
  | success (content : String)
  | httpError (statusText : String)
  | thrown (msg : String)
deriving DecidableEq

/-- The loop of `fetchBiomeRules` over the source URLs: a success
response is parsed and accumulated, a non-success HTTP status is logged
and skipped (`continue`), and a thrown exception aborts the whole run
with a wrapped error. -/
def fetchLoop (env : String → FetchResponse) :
    List String → BiomeRulesData → Except String BiomeRulesData
  | [], acc => Except.ok acc
  | url :: rest, acc =>
    match env url with
    | FetchResponse.success content =>
      let parsedData := parseBiomeMarkdown content url
      fetchLoop env rest
        { mappings := acc.mappings ++ parsedData.mappings
        , exclusiveRules := acc.exclusiveRules ++ parsedData.exclusiveRules
        , sources := acc.sources ++ [url] }
    | FetchResponse.httpError _ => fetchLoop env rest acc
    | FetchResponse.thrown msg =>
      Except.error ("Failed to fetch Biome rules: " ++ msg)

/-- `fetchBiomeRules`, parameterised by the network environment `env`
giving the response of each URL. -/
def fetchBiomeRules (env : String → FetchResponse) : Except String BiomeRulesData :=
  fetchLoop env BIOME_SOURCES_URLS ⟨[], [], []⟩

/-! ## Matching (`stripPluginPrefix`, `findBiomeEquivalent`) -/

/-- The fixed ordered list of known plugin prefixes. -/
def pluginPrefixes : List String :=
  [ "@typescript-eslint/"
  , "@next/next/"
  , "@tanstack/query/"
  , "react/"
  , "react-hooks/"
  , "import/"
  , "jsx-a11y/"
  , "drizzle/"
  , "turbo/"
  , "prettier/"
  , "simple-import-sort/"
  , "prefer-function-component/" ]

/-- The loop of `stripPluginPrefix`: return on the first prefix of the
list that matches, dropping it; otherwise return the name unchanged. -/
def stripLoop (ruleName : String) : List String → String
  | [] => ruleName
  | p :: rest =>
    if jsStartsWith ruleName p then String.mk (ruleName.data.drop p.data.length)
    else stripLoop ruleName rest

/-- `stripPluginPrefix`. -/
def stripPluginPrefix (ruleName : String) : String :=
  stripLoop ruleName pluginPrefixes

/-- `findBiomeEquivalent`: first an exact match of the rule id against
the mappings; failing that, and only when stripping a plugin prefix
changed the id, an exact match of the stripped id. -/
def findBiomeEquivalent (eslintRule : String) (biomeData : BiomeRulesData) : Option String :=
  match biomeData.mappings.find? (fun m => m.eslintRule == eslintRule) with
  | some mapping => some mapping.biomeRule
  | none =>
    let ruleWithoutPrefix := stripPluginPrefix eslintRule
    if ruleWithoutPrefix ≠ eslintRule then
      match biomeData.mappings.find? (fun m => m.eslintRule == ruleWithoutPrefix) with
      | some mapping => some mapping.biomeRule
      | none => none
    else none

/-! ## Compatibility analysis (`analyzeBiomeCompatibility`) -/

/-- One entry of the compatible list of the report. -/
structure CompatEntry where
  eslint : String
  biome : String
  source : String
deriving DecidableEq

/-- The compatibility report. -/
structure CompatReport where
  compatible : List CompatEntry
  incompatible : List String
  compatibilityRate : ℚ
deriving DecidableEq

/-- The second lookup of `analyzeBiomeCompatibility`, used only for the
`source` field of a compatible entry: the first mapping whose
`eslintRule` equals the rule id or its prefix-stripped form, with
`"Unknown"` as fallback. -/
def sourceFor (eslintRule : String) (biomeData : BiomeRulesData) : String :=
  match biomeData.mappings.find?
      (fun m => m.eslintRule == eslintRule || m.eslintRule == stripPluginPrefix eslintRule) with
  | some mapping => mapping.source
  | none => "Unknown"

/-- The classification loop of `analyzeBiomeCompatibility`: each rule
with a Biome equivalent is appended to the compatible list (with the
source of the mapping found by `sourceFor`), the others to the
incompatible list, in input order. -/
def analyzeRules (biomeData : BiomeRulesData) : List String → List CompatEntry × List String
  | [] => ([], [])
  | eslintRule :: rest =>
    let tail := analyzeRules biomeData rest
    match findBiomeEquivalent eslintRule biomeData with
    | some biomeEquivalent =>
      (⟨eslintRule, biomeEquivalent, sourceFor eslintRule biomeData⟩ :: tail.1, tail.2)
    | none => (tail.1, eslintRule :: tail.2)

/-- `analyzeBiomeCompatibility`: classify every rule and compute the
compatibility percentage, `0` when there are no rules. -/
def analyzeBiomeCompatibility (eslintRules : List String) (biomeData : BiomeRulesData) :
    CompatReport :=
  let pair := analyzeRules biomeData eslintRules
  { compatible := pair.1
  , incompatible := pair.2
  , compatibilityRate :=
      if 0 < eslintRules.length then
        ((pair.1.length : ℚ) / (eslintRules.length : ℚ)) * 100
      else 0 }

/-! ## Config extraction (`src/commands/analyze.ts`) -/

/-- A JSON value as it can occur as the severity entry of the `rules`
map of a printed ESLint configuration: a number, a string, an array, or
any other JSON value (`null`, boolean, object). -/
inductive JsValue where
  | num (n : Int)
  | str (s : String)
  | arr (elems : List JsValue)
  | other

/-- The filter predicate of `extractEnabledRules`: for an array take its
first element as the severity, otherwise the value itself; a numeric
severity is enabled when it is `> 0`, every non-numeric severity is
enabled unless it is (strictly equals) the string `"off"`. -/
def isEnabledValue : JsValue → Bool
  | JsValue.arr elems =>
    match elems.head? with
    | some (JsValue.num n) => decide (0 < n)
    | some (JsValue.str s) => s != "off"
    | some _ => true
    | none => true
  | JsValue.num n => decide (0 < n)
  | JsValue.str s => s != "off"
  | _ => true

/-- `extractEnabledRules`: when the config has a `rules` map, keep the
entries whose severity is enabled, take their rule names and sort them
(the default lexicographic string sort of `Array.prototype.sort`). -/
def extractEnabledRules (rules? : Option (List (String × JsValue))) : List String :=
  match rules? with
  | none => []
  | some rules =>
    List.insertionSort (fun a b => strLe a b = true)
      ((rules.filter (fun p => isEnabledValue p.2)).map Prod.fst)

/-! ## `analyzeProject` effect model -/

/-- The observable outcome of one `analyzeProject` run: the exit code it
terminates the process with (`none` for a normal return) and whether the
network fetch of the Biome rule catalog was attempted. -/
structure AnalyzeOutcome where
  exitCode : Option Nat
  fetchAttempted : Bool
deriving DecidableEq

/-- `analyzeProject`, with its effects made explicit: `pathExists` is
the result of the `existsSync` check on the resolved path,
`configResult` the outcome of `getESLintConfig` (the ESLint subprocess
plus JSON parse), and `env` the network environment of
`fetchBiomeRules`.  A missing path exits with code 1 before anything
else; a config failure exits with code 1 in the catch block; only then
is `fetchBiomeRules` reached. -/
def analyzeProject (pathExists : Bool)
    (configResult : Except String (Option (List (String × JsValue))))
    (env : String → FetchResponse) : AnalyzeOutcome :=
  if !pathExists then ⟨some 1, false⟩
  else
    match configResult with
    | Except.error _ => ⟨some 1, false⟩
    | Except.ok rules? =>
      let _enabledRules := extractEnabledRules rules?
      match fetchBiomeRules env with
      | Except.error _ => ⟨some 1, true⟩
      | Except.ok _ => ⟨none, true⟩

/-! ## Spec-side severity predicates

The two predicates below are written from the specification's words, not
from the code; they are compared against the code-side filter
`isEnabledValue`. -/

/-- The claim's "disabled" predicate, literally as stated: the number
`0`, the string `"off"`, or an array whose first element is one of
those. -/
def claimSeverityDisabled : JsValue → Bool
  | JsValue.num n => n == 0
  | JsValue.str s => s == "off"
  | JsValue.arr elems =>
    match elems.head? with
    | some (JsValue.num n) => n == 0
    | some (JsValue.str s) => s == "off"
    | _ => false
  | JsValue.other => false

/-- The amended "disabled" predicate: a non-positive number, the string
`"off"`, or an array whose first element is one of those. -/
def specSeverityDisabled : JsValue → Bool
  | JsValue.num n => decide (n ≤ 0)
  | JsValue.str s => s == "off"
  | JsValue.arr elems =>
    match elems.head? with
    | some (JsValue.num n) => decide (n ≤ 0)
    | some (JsValue.str s) => s == "off"
    | _ => false
  | JsValue.other => false

/-- Fetch helper: the body of a success response. -/
def responseContent : FetchResponse → Option String
  | FetchResponse.success content => some content
  | _ => none

/-- Fetch helper: whether a response is a thrown exception. -/
def isThrownResponse : FetchResponse → Bool
  | FetchResponse.thrown _ => true
  | _ => false

/-! ## Helper lemmas -/

theorem lexLe_cons (a b : Char) (as bs : List Char) :
    lexLe (a :: as) (b :: bs) = if a = b then lexLe as bs else decide (a < b) := rfl

theorem lexLe_total : ∀ as bs : List Char, lexLe as bs = true ∨ lexLe bs as = true
  | [], _ => Or.inl rfl
  | _ :: _, [] => Or.inr rfl
  | a :: as, b :: bs => by
    by_cases hab : a = b
    · subst hab
      rw [lexLe_cons, lexLe_cons, if_pos rfl, if_pos rfl]
      exact lexLe_total as bs
    · have hba : b ≠ a := fun h => hab h.symm
      rcases lt_or_gt_of_ne hab with h | h
      · exact Or.inl (by rw [lexLe_cons, if_neg hab]; exact decide_eq_true h)
      · exact Or.inr (by rw [lexLe_cons, if_neg hba]; exact decide_eq_true h)

theorem lexLe_trans : ∀ as bs cs : List Char,
    lexLe as bs = true → lexLe bs cs = true → lexLe as cs = true
  | [], _, _, _, _ => rfl
  | _ :: _, [], _, h1, _ => by exact absurd h1 (by simp [lexLe])
  | _ :: _, _ :: _, [], _, h2 => by exact absurd h2 (by simp [lexLe])
  | a :: as, b :: bs, c :: cs, h1, h2 => by
    by_cases hab : a = b <;> by_cases hbc : b = c
    · subst hab; subst hbc
      rw [lexLe_cons, if_pos rfl] at h1 h2 ⊢
      exact lexLe_trans as bs cs h1 h2
    · subst hab
      rw [lexLe_cons, if_neg hbc] at h2
      have hlt : a < c := of_decide_eq_true h2
      rw [lexLe_cons, if_neg (ne_of_lt hlt)]
      exact decide_eq_true hlt
    · subst hbc
      rw [lexLe_cons, if_neg hab] at h1
      have hlt : a < b := of_decide_eq_true h1
      rw [lexLe_cons, if_neg (ne_of_lt hlt)]
      exact decide_eq_true hlt
    · rw [lexLe_cons, if_neg hab] at h1
      rw [lexLe_cons, if_neg hbc] at h2
      have hlt : a < c := lt_trans (of_decide_eq_true h1) (of_decide_eq_true h2)
      rw [lexLe_cons, if_neg (ne_of_lt hlt)]
      exact decide_eq_true hlt

instance strLe_total_inst : IsTotal String (fun a b => strLe a b = true) :=
  ⟨fun a b => lexLe_total a.data b.data⟩

instance strLe_trans_inst : IsTrans String (fun a b => strLe a b = true) :=
  ⟨fun a b c h1 h2 => lexLe_trans a.data b.data c.data h1 h2⟩

theorem stripLoop_eq_find (r : String) : ∀ ps : List String,
    stripLoop r ps =
      match ps.find? (fun p => jsStartsWith r p) with
      | some p => String.mk (r.data.drop p.data.length)
      | none => r
  | [] => rfl
  | p :: rest => by
    by_cases h : jsStartsWith r p
    · simp [stripLoop, List.find?, h]
    · simp only [Bool.not_eq_true] at h
      simp [stripLoop, List.find?, h, stripLoop_eq_find r rest]

theorem decide_pos_eq_not_decide_nonpos (n : Int) : decide (0 < n) = !decide (n ≤ 0) := by
  rw [← decide_not, decide_eq_decide]
  omega

theorem isEnabledValue_eq_not_specSeverityDisabled (v : JsValue) :
    isEnabledValue v = !(specSeverityDisabled v) := by
  cases v with
  | num n =>
    simp only [isEnabledValue, specSeverityDisabled]
    exact decide_pos_eq_not_decide_nonpos n
  | str s => simp [isEnabledValue, specSeverityDisabled, bne]
  | other => simp [isEnabledValue, specSeverityDisabled]
  | arr elems =>
    cases elems with
    | nil => simp [isEnabledValue, specSeverityDisabled]
    | cons hd tl =>
      cases hd with
      | num n =>
        simp only [isEnabledValue, specSeverityDisabled, List.head?_cons]
        exact decide_pos_eq_not_decide_nonpos n
      | str s => simp [isEnabledValue, specSeverityDisabled, bne]
      | arr es => simp [isEnabledValue, specSeverityDisabled]
      | other => simp [isEnabledValue, specSeverityDisabled]

theorem containsSub_single_of_cons (c : Char) (t : List Char) :
    ∀ cs : List Char, containsSub (c :: t) cs = true → containsSub [c] cs = true
  | [], h => by simp [containsSub] at h
  | x :: rest, h => by
    rw [containsSub, Bool.or_eq_true] at h ⊢
    rcases h with h | h
    · left
      simp only [List.isPrefixOf, Bool.and_eq_true] at h ⊢
      exact ⟨h.1, trivial⟩
    · right
      exact containsSub_single_of_cons c t rest h

theorem analyzeRules_fst_map (biomeData : BiomeRulesData) : ∀ rules : List String,
    ((analyzeRules biomeData rules).1).map CompatEntry.eslint =
      rules.filter (fun r => (findBiomeEquivalent r biomeData).isSome)
  | [] => rfl
  | r :: rest => by
    cases h : findBiomeEquivalent r biomeData with
    | some b => simp [analyzeRules, h, List.filter, analyzeRules_fst_map biomeData rest]
    | none => simp [analyzeRules, h, List.filter, analyzeRules_fst_map biomeData rest]

theorem analyzeRules_snd (biomeData : BiomeRulesData) : ∀ rules : List String,
    (analyzeRules biomeData rules).2 =
      rules.filter (fun r => !(findBiomeEquivalent r biomeData).isSome)
  | [] => rfl
  | r :: rest => by
    cases h : findBiomeEquivalent r biomeData with
    | some b => simp [analyzeRules, h, List.filter, analyzeRules_snd biomeData rest]
    | none => simp [analyzeRules, h, List.filter, analyzeRules_snd biomeData rest]

theorem analyzeRules_length (biomeData : BiomeRulesData) : ∀ rules : List String,
    (analyzeRules biomeData rules).1.length + (analyzeRules biomeData rules).2.length =
      rules.length
  | [] => rfl
  | r :: rest => by
    have ih := analyzeRules_length biomeData rest
    cases h : findBiomeEquivalent r biomeData with
    | some b => simp only [analyzeRules, h, List.length_cons]; omega
    | none => simp only [analyzeRules, h, List.length_cons]; omega

theorem analyzeRules_mem_fst (biomeData : BiomeRulesData) : ∀ (rules : List String)
    (e : CompatEntry), e ∈ (analyzeRules biomeData rules).1 →
    findBiomeEquivalent e.eslint biomeData = some e.biome ∧
      e.source = sourceFor e.eslint biomeData
  | [], _, he => absurd he (by simp [analyzeRules])
  | r :: rest, e, he => by
    cases h : findBiomeEquivalent r biomeData with
    | some b =>
      rw [analyzeRules] at he
      simp only [h] at he
      rcases List.mem_cons.mp he with rfl | hmem
      · exact ⟨h, rfl⟩
      · exact analyzeRules_mem_fst biomeData rest e hmem
    | none =>
      rw [analyzeRules] at he
      simp only [h] at he
      exact analyzeRules_mem_fst biomeData rest e he

theorem fetchLoop_ok (env : String → FetchResponse) : ∀ (urls : List String)
    (acc : BiomeRulesData), (urls.all (fun u => !(isThrownResponse (env u)))) = true →
    fetchLoop env urls acc = Except.ok
      { mappings := acc.mappings ++
          ((urls.filter (fun u => (responseContent (env u)).isSome)).flatMap
            (fun u => (parseBiomeMarkdown ((responseContent (env u)).getD "") u).mappings))
      , exclusiveRules := acc.exclusiveRules ++
          ((urls.filter (fun u => (responseContent (env u)).isSome)).flatMap
            (fun u => (parseBiomeMarkdown ((responseContent (env u)).getD "") u).exclusiveRules))
      , sources := acc.sources ++ urls.filter (fun u => (responseContent (env u)).isSome) }
  | [], acc, _ => by simp [fetchLoop]
  | url :: rest, acc, h => by
    rw [List.all_cons, Bool.and_eq_true] at h
    cases henv : env url with
    | success content =>
      simp only [fetchLoop, henv]
      rw [fetchLoop_ok env rest
        { mappings := acc.mappings ++ (parseBiomeMarkdown content url).mappings
        , exclusiveRules := acc.exclusiveRules ++ (parseBiomeMarkdown content url).exclusiveRules
        , sources := acc.sources ++ [url] } h.2]
      simp [List.filter_cons, henv, responseContent, List.append_assoc]
    | httpError msg =>
      simp only [fetchLoop, henv]
      rw [fetchLoop_ok env rest acc h.2]
      simp [List.filter_cons, henv, responseContent]
    | thrown msg =>
      rw [henv] at h
      exact absurd h.1 (by simp [isThrownResponse])

/-! ## Example data used by concrete statements -/

/-- The mapping table of the spec's end-to-end example. -/
def exampleBiomeData : BiomeRulesData :=
  ⟨[⟨"no-var", "useVar", "JS"⟩], [], []⟩

/-- A mapping table holding both a bare rule and its plugin-prefixed
variant, with distinct targets and categories. -/
def twoEntryBiomeData : BiomeRulesData :=
  ⟨[⟨"foo", "B1", "S1"⟩, ⟨"react/foo", "B2", "S2"⟩], [], []⟩

/-- A network environment where the first source succeeds (with an empty
body) and the other two return a non-success HTTP status. -/
def envOneSuccess : String → FetchResponse := fun u =>
  if u = "https://raw.githubusercontent.com/biomejs/website/refs/heads/main/src/content/docs/linter/css/sources.mdx"
  then FetchResponse.success "" else FetchResponse.httpError "Service Unavailable"

/-! ## Claims -/

/-- C1, counterexample: when every remote source returns a non-success
HTTP status, `fetchBiomeRules` does not abort with a `RuleFetchError`;
it returns normally with empty data. -/
theorem fetchBiomeRules_allHttpError_counterexample :
    fetchBiomeRules (fun _ => FetchResponse.httpError "Internal Server Error") =
      Except.ok { mappings := [], exclusiveRules := [], sources := [] } := rfl

/-- C1 (amended): as long as no fetch throws an exception, every source
returning a non-success HTTP status is skipped and the run proceeds —
returning normally — using exactly the mappings and exclusive rules
parsed from the successful sources, in source order; in particular, when
every source fails with an HTTP error the result is empty data, not an
abort. -/
theorem fetchBiomeRules_skips_failures (env : String → FetchResponse)
    (h : (BIOME_SOURCES_URLS.all (fun u => !(isThrownResponse (env u)))) = true) :
    fetchBiomeRules env = Except.ok
      { mappings :=
          (BIOME_SOURCES_URLS.filter (fun u => (responseContent (env u)).isSome)).flatMap
            (fun u => (parseBiomeMarkdown ((responseContent (env u)).getD "") u).mappings)
      , exclusiveRules :=
          (BIOME_SOURCES_URLS.filter (fun u => (responseContent (env u)).isSome)).flatMap
            (fun u => (parseBiomeMarkdown ((responseContent (env u)).getD "") u).exclusiveRules)
      , sources := BIOME_SOURCES_URLS.filter (fun u => (responseContent (env u)).isSome) } := by
  have hmain := fetchLoop_ok env BIOME_SOURCES_URLS ⟨[], [], []⟩ h
  simpa [fetchBiomeRules] using hmain

/-- C1, witness: the amended theorem applied to a concrete environment
where one source succeeds and the others fail with an HTTP error. -/
theorem fetchBiomeRules_skips_failures_witness :
    (BIOME_SOURCES_URLS.all (fun u => !(isThrownResponse (envOneSuccess u)))) = true ∧
    fetchBiomeRules envOneSuccess = Except.ok
      { mappings :=
          (BIOME_SOURCES_URLS.filter (fun u => (responseContent (envOneSuccess u)).isSome)).flatMap
            (fun u => (parseBiomeMarkdown ((responseContent (envOneSuccess u)).getD "") u).mappings)
      , exclusiveRules :=
          (BIOME_SOURCES_URLS.filter (fun u => (responseContent (envOneSuccess u)).isSome)).flatMap
            (fun u =>
              (parseBiomeMarkdown ((responseContent (envOneSuccess u)).getD "") u).exclusiveRules)
      , sources :=
          BIOME_SOURCES_URLS.filter (fun u => (responseContent (envOneSuccess u)).isSome) } :=
  ⟨by decide, fetchBiomeRules_skips_failures envOneSuccess (by decide)⟩

/-- C2: `findBiomeEquivalent` first attempts an exact match (the first
matching entry wins), then — only when prefix stripping changes the id —
an exact match of the stripped id, and returns no match otherwise;
`analyzeBiomeCompatibility` classifies a rule without a match as
incompatible; and the spec's end-to-end example holds. -/
theorem findBiomeEquivalent_spec :
    (∀ (r : String) (d : BiomeRulesData) (m : BiomeRuleMapping),
      d.mappings.find? (fun m' => m'.eslintRule == r) = some m →
      findBiomeEquivalent r d = some m.biomeRule) ∧
    (∀ (r : String) (d : BiomeRulesData),
      d.mappings.find? (fun m' => m'.eslintRule == r) = none →
      stripPluginPrefix r ≠ r →
      findBiomeEquivalent r d =
        (d.mappings.find? (fun m' => m'.eslintRule == stripPluginPrefix r)).map
          BiomeRuleMapping.biomeRule) ∧
    (∀ (r : String) (d : BiomeRulesData),
      d.mappings.find? (fun m' => m'.eslintRule == r) = none →
      stripPluginPrefix r = r →
      findBiomeEquivalent r d = none) ∧
    (∀ (rules : List String) (d : BiomeRulesData) (r : String),
      r ∈ rules → findBiomeEquivalent r d = none →
      r ∈ (analyzeBiomeCompatibility rules d).incompatible) ∧
    ((analyzeBiomeCompatibility ["no-var", "@typescript-eslint/no-explicit-any"]
        exampleBiomeData).compatible = [⟨"no-var", "useVar", "JS"⟩] ∧
      (analyzeBiomeCompatibility ["no-var", "@typescript-eslint/no-explicit-any"]
        exampleBiomeData).incompatible = ["@typescript-eslint/no-explicit-any"] ∧
      (analyzeBiomeCompatibility ["no-var", "@typescript-eslint/no-explicit-any"]
        exampleBiomeData).compatibilityRate = 50) := by
  refine ⟨?_, ?_, ?_, ?_, ?_, ?_, ?_⟩
  · intro r d m h
    simp [findBiomeEquivalent, h]
  · intro r d h1 h2
    simp only [findBiomeEquivalent, h1]
    rw [if_pos h2]
    cases hf : d.mappings.find? (fun m' => m'.eslintRule == stripPluginPrefix r) <;> simp [hf]
  · intro r d h1 h2
    simp only [findBiomeEquivalent, h1]
    rw [if_neg (not_not_intro h2)]
  · intro rules d r hr hn
    have hinc : (analyzeBiomeCompatibility rules d).incompatible =
        rules.filter (fun x => !(findBiomeEquivalent x d).isSome) := analyzeRules_snd d rules
    rw [hinc]
    exact List.mem_filter.mpr ⟨hr, by simp [hn]⟩
  · decide
  · decide
  · have hlen : (analyzeRules exampleBiomeData
        ["no-var", "@typescript-eslint/no-explicit-any"]).1.length = 1 := by decide
    show (if 0 < (["no-var", "@typescript-eslint/no-explicit-any"] : List String).length then
        (((analyzeRules exampleBiomeData
            ["no-var", "@typescript-eslint/no-explicit-any"]).1.length : ℚ) /
          ((["no-var", "@typescript-eslint/no-explicit-any"] : List String).length : ℚ)) * 100
      else 0) = 50
    rw [hlen]
    norm_num

/-- C2, witness: the matching behaviour and the incompatibility
classification at concrete inputs. -/
theorem findBiomeEquivalent_spec_witness :
    findBiomeEquivalent "no-var" exampleBiomeData = some "useVar" ∧
    findBiomeEquivalent "@typescript-eslint/no-explicit-any" exampleBiomeData = none ∧
    "@typescript-eslint/no-explicit-any" ∈
      (analyzeBiomeCompatibility ["no-var", "@typescript-eslint/no-explicit-any"]
        exampleBiomeData).incompatible := by
  refine ⟨?_, ?_, ?_⟩
  · exact findBiomeEquivalent_spec.1 "no-var" exampleBiomeData ⟨"no-var", "useVar", "JS"⟩
      (by decide)
  · have h := findBiomeEquivalent_spec.2.1 "@typescript-eslint/no-explicit-any"
      exampleBiomeData (by decide) (by decide)
    simpa using h
  · exact findBiomeEquivalent_spec.2.2.2.1
      ["no-var", "@typescript-eslint/no-explicit-any"] exampleBiomeData
      "@typescript-eslint/no-explicit-any" (by decide) (by decide)

/-- C5: the compatibility rate is `0` for an empty rule list, equals
`(compatible / total) * 100` otherwise, and always lies in `[0, 100]`. -/
theorem compatibilityRate_spec (rules : List String) (d : BiomeRulesData) :
    (rules = [] → (analyzeBiomeCompatibility rules d).compatibilityRate = 0) ∧
    (rules ≠ [] →
      (analyzeBiomeCompatibility rules d).compatibilityRate =
        ((analyzeBiomeCompatibility rules d).compatible.length : ℚ) / (rules.length : ℚ) * 100) ∧
    0 ≤ (analyzeBiomeCompatibility rules d).compatibilityRate ∧
    (analyzeBiomeCompatibility rules d).compatibilityRate ≤ 100 := by
  have hrate : (analyzeBiomeCompatibility rules d).compatibilityRate =
      if 0 < rules.length then
        (((analyzeRules d rules).1.length : ℚ) / (rules.length : ℚ)) * 100
      else 0 := rfl
  have hcomp : (analyzeBiomeCompatibility rules d).compatible = (analyzeRules d rules).1 := rfl
  have hle : (analyzeRules d rules).1.length ≤ rules.length := by
    have := analyzeRules_length d rules
    omega
  refine ⟨?_, ?_, ?_, ?_⟩
  · intro h
    rw [hrate, if_neg (by simp [h])]
  · intro h
    rw [hrate, if_pos (List.length_pos.mpr h), hcomp]
  · rw [hrate]
    by_cases h : 0 < rules.length
    · rw [if_pos h]
      positivity
    · rw [if_neg h]
  · rw [hrate]
    by_cases h : 0 < rules.length
    · rw [if_pos h]
      have hn : (0 : ℚ) < (rules.length : ℚ) := by exact_mod_cast h
      have hc : ((analyzeRules d rules).1.length : ℚ) ≤ (rules.length : ℚ) := by
        exact_mod_cast hle
      have h1 : ((analyzeRules d rules).1.length : ℚ) / (rules.length : ℚ) ≤ 1 :=
        (div_le_one hn).mpr hc
      calc ((analyzeRules d rules).1.length : ℚ) / (rules.length : ℚ) * 100
          ≤ 1 * 100 := mul_le_mul_of_nonneg_right h1 (by norm_num)
        _ = 100 := by norm_num
    · rw [if_neg h]
      norm_num

/-- C5, witness: the rate equations at an empty and at a one-element
rule list. -/
theorem compatibilityRate_spec_witness :
    (analyzeBiomeCompatibility ([] : List String) exampleBiomeData).compatibilityRate = 0 ∧
    (analyzeBiomeCompatibility ["x"] exampleBiomeData).compatibilityRate =
      ((analyzeBiomeCompatibility ["x"] exampleBiomeData).compatible.length : ℚ) /
        ((["x"] : List String).length : ℚ) * 100 :=
  ⟨(compatibilityRate_spec [] exampleBiomeData).1 rfl,
   (compatibilityRate_spec ["x"] exampleBiomeData).2.1 (by decide)⟩

/-- C7: `stripPluginPrefix` strips exactly the first matching prefix of
the fixed list — hence at most one — and leaves a rule id without any
recognized prefix unchanged. -/
theorem stripPluginPrefix_spec (r : String) :
    (stripPluginPrefix r =
      match pluginPrefixes.find? (fun p => jsStartsWith r p) with
      | some p => String.mk (r.data.drop p.data.length)
      | none => r) ∧
    ((pluginPrefixes.all (fun p => !(jsStartsWith r p))) = true → stripPluginPrefix r = r) := by
  constructor
  · exact stripLoop_eq_find r pluginPrefixes
  · intro h
    have hn : pluginPrefixes.find? (fun p => jsStartsWith r p) = none :=
      List.find?_eq_none.mpr (fun p hp => by
        have := List.all_eq_true.mp h p hp
        simpa using this)
    rw [stripPluginPrefix, stripLoop_eq_find r pluginPrefixes, hn]

/-- C7, witness: a rule id without any recognized prefix is unchanged. -/
theorem stripPluginPrefix_spec_witness :
    (pluginPrefixes.all (fun p => !(jsStartsWith "no-var" p))) = true ∧
    stripPluginPrefix "no-var" = "no-var" :=
  ⟨by decide, (stripPluginPrefix_spec "no-var").2 (by decide)⟩

/-- C8: when the target path does not exist, `analyzeProject` exits with
code 1 and no network fetch of the Biome rule catalog is attempted,
whatever the config and network environments would have produced. -/
theorem analyzeProject_missing_path
    (configResult : Except String (Option (List (String × JsValue))))
    (env : String → FetchResponse) :
    (analyzeProject false configResult env).exitCode = some 1 ∧
    (analyzeProject false configResult env).fetchAttempted = false :=
  ⟨rfl, rfl⟩

/-- C3: for a configuration whose rules map has unique keys (as every
JavaScript object does), the extracted enabled-rule list is sorted in
ascending lexicographic order and contains no duplicates. -/
theorem extractEnabledRules_sorted_nodup (rules? : Option (List (String × JsValue)))
    (h : ((rules?.getD []).map Prod.fst).Nodup) :
    List.Sorted (fun a b => strLe a b = true) (extractEnabledRules rules?) ∧
    (extractEnabledRules rules?).Nodup := by
  cases rules? with
  | none => exact ⟨List.sorted_nil, List.nodup_nil⟩
  | some rules =>
    constructor
    · exact List.sorted_insertionSort _ _
    · have hsub : (((rules.filter (fun p => isEnabledValue p.2)).map Prod.fst)).Sublist
          (rules.map Prod.fst) := (List.filter_sublist rules).map Prod.fst
      have hnd : (((rules.filter (fun p => isEnabledValue p.2)).map Prod.fst)).Nodup :=
        List.Nodup.sublist hsub (by simpa using h)
      exact ((List.perm_insertionSort _ _).nodup_iff).mpr hnd

/-- C3, witness: a concrete two-rule configuration. -/
theorem extractEnabledRules_sorted_nodup_witness :
    (((some [("b", JsValue.num 2), ("a", JsValue.str "error")] :
        Option (List (String × JsValue))).getD []).map Prod.fst).Nodup ∧
    (List.Sorted (fun a b => strLe a b = true)
        (extractEnabledRules (some [("b", JsValue.num 2), ("a", JsValue.str "error")])) ∧
      (extractEnabledRules (some [("b", JsValue.num 2), ("a", JsValue.str "error")])).Nodup) :=
  ⟨by decide, extractEnabledRules_sorted_nodup
    (some [("b", JsValue.num 2), ("a", JsValue.str "error")]) (by decide)⟩

/-- C4, counterexample: a rule with numeric severity `-1` is excluded by
`extractEnabledRules` although its severity is not "disabled" in the
claim's sense (it is neither the number `0` nor the string `"off"` nor
an array starting with one of those), so exclusion does not happen
exactly on the claim's disabled severities. -/
theorem extractEnabledRules_negative_severity_counterexample :
    extractEnabledRules (some [("a", JsValue.num (-1))]) = [] ∧
    claimSeverityDisabled (JsValue.num (-1)) = false := by
  exact ⟨by decide, rfl⟩

/-- C4 (amended): a rule is included in the output of
`extractEnabledRules` exactly when its severity — given directly or as
the first element of an array — is neither a number `≤ 0` nor the string
`"off"`; equivalently, it is excluded exactly when the severity resolves
to a non-positive number or `"off"`. -/
theorem extractEnabledRules_disabled_filter (rules : List (String × JsValue)) (k : String) :
    k ∈ extractEnabledRules (some rules) ↔
      ∃ v, (k, v) ∈ rules ∧ specSeverityDisabled v = false := by
  have hperm := List.perm_insertionSort (fun a b => strLe a b = true)
      ((rules.filter (fun p => isEnabledValue p.2)).map Prod.fst)
  rw [extractEnabledRules]
  rw [hperm.mem_iff]
  simp only [List.mem_map, List.mem_filter, isEnabledValue_eq_not_specSeverityDisabled,
    Bool.not_eq_true']
  constructor
  · rintro ⟨⟨a, v⟩, ⟨hm, hd⟩, rfl⟩
    exact ⟨v, hm, hd⟩
  · rintro ⟨v, hm, hd⟩
    exact ⟨(k, v), ⟨hm, hd⟩, rfl⟩

/-- C6: the markdown parser tracks the most recent `### ` heading as the
current category, a `| ---- | ---- |` line opens a table region, a row
with two bracketed links inside an open table yields one mapping (first
name → source, second name → target, current heading → category),
header-restatement rows are skipped, a nonempty non-table-row line
closes the region, and the spec's concrete example row yields
`{source: no-var, target: useVar, category: JS}`. -/
theorem parseBiomeMarkdown_spec :
    (∀ (st : ParseState) (l : String) (rest : List String),
      jsStartsWith (jsTrim l) "### " = true →
      parseLines st (l :: rest) =
        parseLines { st with currentSection := jsTrim (String.mk ((jsTrim l).data.drop 4))
                           , inTable := false } rest) ∧
    (∀ (st : ParseState) (l : String) (rest : List String),
      jsStartsWith (jsTrim l) "### " = false →
      jsStartsWith (jsTrim l) "## Biome exclusive rules" = false →
      jsIncludes (jsTrim l) "| ---- | ---- |" = true →
      parseLines st (l :: rest) = parseLines { st with inTable := true } rest) ∧
    (∀ (st : ParseState) (l : String) (rest : List String),
      st.inTable = true →
      jsStartsWith (jsTrim l) "### " = false →
      jsStartsWith (jsTrim l) "## Biome exclusive rules" = false →
      jsIncludes (jsTrim l) "| ---- | ---- |" = false →
      jsIncludes (jsTrim l) "|" = true →
      jsIncludes (jsTrim l) "[" = true →
      jsIncludes (jsTrim l) "](" = true →
      parseLines st (l :: rest) =
        parseLines { st with mappings :=
          st.mappings ++ (parseTableRow (jsTrim l) st.currentSection).toList } rest) ∧
    (∀ (st : ParseState) (l : String) (rest : List String),
      st.inTable = true →
      jsStartsWith (jsTrim l) "### " = false →
      jsStartsWith (jsTrim l) "## Biome exclusive rules" = false →
      jsIncludes (jsTrim l) "|" = false →
      0 < (jsTrim l).length →
      parseLines st (l :: rest) = parseLines { st with inTable := false } rest) ∧
    parseTableRow "| [Rules name](url) | [Rules name](url) |" "JS" = none ∧
    parseTableRow "| [no-var](url) | [useVar](url) |" "JS" = some ⟨"no-var", "useVar", "JS"⟩ ∧
    parseBiomeMarkdown
        "### JS\n| Rules name | Rules name |\n| ---- | ---- |\n| [no-var](url) | [useVar](url) |"
        "u" =
      ⟨[⟨"no-var", "useVar", "JS"⟩], [], ["u"]⟩ := by
  refine ⟨?_, ?_, ?_, ?_, by decide, by decide, by decide⟩
  · intro st l rest h
    simp only [parseLines, h, if_true]
  · intro st l rest h1 h2 h3
    simp only [parseLines, h1, h2, h3]
    simp
  · intro st l rest ht h1 h2 h3 h4 h5 h6
    cases hrow : parseTableRow (jsTrim l) st.currentSection with
    | some m => simp [parseLines, h1, h2, h3, h4, h5, h6, ht, hrow]
    | none =>
      simp [parseLines, h1, h2, h3, h4, h5, h6, ht, hrow]
      conv_rhs => rw [← ht]
  · intro st l rest ht h1 h2 h3 h4
    have h3' : containsSub ['|'] (jsTrim l).data = false := h3
    have h5 : jsIncludes (jsTrim l) "| ---- | ---- |" = false := by
      by_contra hc
      rw [Bool.not_eq_false] at hc
      have hc' : containsSub ('|' :: " ---- | ---- |".data) (jsTrim l).data = true := hc
      have hone := containsSub_single_of_cons '|' " ---- | ---- |".data (jsTrim l).data hc'
      rw [hone] at h3'
      exact Bool.noConfusion h3'
    simp only [parseLines, h1, h2, h3, h5, ht]
    simp [h4]

/-- C6, witness: each per-line behaviour of the scanner at a concrete
state and line. -/
theorem parseBiomeMarkdown_spec_witness :
    (parseLines ⟨[], [], "", false⟩ ["### JS"] =
      parseLines { (⟨[], [], "", false⟩ : ParseState) with
        currentSection := jsTrim (String.mk ((jsTrim "### JS").data.drop 4))
        , inTable := false } []) ∧
    (parseLines ⟨[], [], "JS", false⟩ ["| ---- | ---- |"] =
      parseLines { (⟨[], [], "JS", false⟩ : ParseState) with inTable := true } []) ∧
    (parseLines ⟨[], [], "JS", true⟩ ["| [no-var](url) | [useVar](url) |"] =
      parseLines { (⟨[], [], "JS", true⟩ : ParseState) with mappings :=
        [] ++ (parseTableRow (jsTrim "| [no-var](url) | [useVar](url) |") "JS").toList } []) ∧
    (parseLines ⟨[], [], "JS", true⟩ ["done"] =
      parseLines { (⟨[], [], "JS", true⟩ : ParseState) with inTable := false } []) :=
  ⟨parseBiomeMarkdown_spec.1 ⟨[], [], "", false⟩ "### JS" [] (by decide),
   parseBiomeMarkdown_spec.2.1 ⟨[], [], "JS", false⟩ "| ---- | ---- |" []
     (by decide) (by decide) (by decide),
   parseBiomeMarkdown_spec.2.2.1 ⟨[], [], "JS", true⟩ "| [no-var](url) | [useVar](url) |" []
     rfl (by decide) (by decide) (by decide) (by decide) (by decide) (by decide),
   parseBiomeMarkdown_spec.2.2.2.1 ⟨[], [], "JS", true⟩ "done" []
     rfl (by decide) (by decide) (by decide) (by decide)⟩

/-- C9: the compatible and incompatible lists partition the input rule
list: the compatible entries' eslint ids are exactly the input rules with
a Biome equivalent, in input order, the incompatible list holds exactly
the others, in input order, and the two lengths sum to the input
length. -/
theorem analyzeBiomeCompatibility_partition (rules : List String) (d : BiomeRulesData) :
    ((analyzeBiomeCompatibility rules d).compatible.map CompatEntry.eslint =
      rules.filter (fun r => (findBiomeEquivalent r d).isSome)) ∧
    ((analyzeBiomeCompatibility rules d).incompatible =
      rules.filter (fun r => !(findBiomeEquivalent r d).isSome)) ∧
    ((analyzeBiomeCompatibility rules d).compatible.length +
      (analyzeBiomeCompatibility rules d).incompatible.length = rules.length) :=
  ⟨analyzeRules_fst_map d rules, analyzeRules_snd d rules, analyzeRules_length d rules⟩

/-- C10, counterexample: for the rule `react/foo` against a table that
maps `foo` to `B1` (category `S1`) and `react/foo` to `B2` (category
`S2`), the compatible entry is `⟨react/foo, B2, S1⟩` — target from the
exact-match entry but category from the stripped-match entry — and no
single mapping entry carries both that target and that category. -/
theorem analyzeBiomeCompatibility_source_counterexample :
    (analyzeBiomeCompatibility ["react/foo"] twoEntryBiomeData).compatible =
      [⟨"react/foo", "B2", "S1"⟩] ∧
    (twoEntryBiomeData.mappings.all (fun m =>
      !((m.eslintRule == "react/foo" || m.eslintRule == stripPluginPrefix "react/foo")
        && m.biomeRule == "B2" && m.source == "S1"))) = true :=
  ⟨by decide, by decide⟩

/-- C10 (amended): each compatible entry's biome field is the result of
`findBiomeEquivalent` (exact match preferred, then stripped), while its
source field comes from the first mapping whose eslintRule equals the
rule id or its stripped form (`sourceFor`); the two lookups may select
different mapping entries. -/
theorem compatible_entry_fields (rules : List String) (d : BiomeRulesData)
    (e : CompatEntry) (he : e ∈ (analyzeBiomeCompatibility rules d).compatible) :
    findBiomeEquivalent e.eslint d = some e.biome ∧
    e.source = sourceFor e.eslint d :=
  analyzeRules_mem_fst d rules e he

/-- C10, witness: the amended theorem at the two-entry table. -/
theorem compatible_entry_fields_witness :
    ((⟨"react/foo", "B2", "S1"⟩ : CompatEntry) ∈
      (analyzeBiomeCompatibility ["react/foo"] twoEntryBiomeData).compatible) ∧
    (findBiomeEquivalent "react/foo" twoEntryBiomeData = some "B2" ∧
      "S1" = sourceFor "react/foo" twoEntryBiomeData) :=
  ⟨by decide, compatible_entry_fields ["react/foo"] twoEntryBiomeData
    ⟨"react/foo", "B2", "S1"⟩ (by decide)⟩
